import Mathlib

/-!
# Verification of the msvcfilt scan-and-substitute pipeline

Shallow embedding of `src/msvcfilt.cpp`: a line-oriented stream filter that
finds spans matching the heuristic decorated-symbol pattern
`\?[a-zA-Z0-9_@?$]+`, asks an external resolver (the DbgHelp function
`UnDecorateSymbolName`) for an undecorated form of each span, and rewrites
the line according to the substitution policy.

Lines are modelled as `List Char` (a C++ `std::string` may carry embedded
NUL bytes, which matter at the trailing-output step of `main`).  The
external resolver is an abstract parameter `List Char → Option (List Char)`.
-/

/-- The character class `[a-zA-Z0-9_@?$]` of the decorated-symbol pattern
(`DECORATED_SYMBOL_PATTERN` in `main`). -/
def isSymChar (c : Char) : Bool :=
  (decide ('a' ≤ c) && decide (c ≤ 'z')) ||
  (decide ('A' ≤ c) && decide (c ≤ 'Z')) ||
  (decide ('0' ≤ c) && decide (c ≤ '9')) ||
  c == '_' || c == '@' || c == '?' || c == '$'

/-- Whether the first character of the list exists and is in the symbol
character class: the condition for `\?[a-zA-Z0-9_@?$]+` to match at a `?`. -/
def headSym : List Char → Bool
  | [] => false
  | d :: _ => isSymChar d

/-- The NUL character, the terminator of a C string. -/
def nulChar : Char := Char.ofNat 0

/-- One step of the scan, fuelled so that it computes by kernel reduction.
Returns the list of (gap, match) pairs produced by the leftmost,
non-overlapping, greedy matching of `\?[a-zA-Z0-9_@?$]+` — exactly the
matches `std::sregex_token_iterator` enumerates in `main` — paired with the
literal text preceding each match, plus the trailing text after the last
match.  A match starts at a `?` that is followed by at least one class
character and extends over the maximal run of class characters; at any
other character the scan advances by one (that character is gap text).
The fuel only needs to dominate the list length; `tokenize` supplies it. -/
def tokenizeF : Nat → List Char → List (List Char × List Char) × List Char
  | 0, l => ([], l)
  | _ + 1, [] => ([], [])
  | fuel + 1, c :: cs =>
    if c == '?' && headSym cs then
      let sym := cs.takeWhile isSymChar
      let rest := cs.dropWhile isSymChar
      let r := tokenizeF fuel rest
      (([], c :: sym) :: r.1, r.2)
    else
      match tokenizeF fuel cs with
      | ([], t) => ([], c :: t)
      | ((g, m) :: ps, t) => ((c :: g, m) :: ps, t)

/-- The scan of one line: the ordered (gap, match) pairs and the trailing
text after the last match. -/
def tokenize (l : List Char) : List (List Char × List Char) × List Char :=
  tokenizeF l.length l

/-- The text `main` writes for one (gap, match) pair: the gap is printed
first (`std::cout << std::string_view( prevPos, startPos )`), before the
resolver is consulted; then, if resolution fails, `continue` prints nothing
for the match; if it succeeds with `gKeepOldName` set, the original match,
a space, and the resolved name in double quotes are printed; otherwise the
resolved name alone. -/
def renderTok (resolve : List Char → Option (List Char)) (keep : Bool)
    (gm : List Char × List Char) : List Char :=
  gm.1 ++
    match resolve gm.2 with
    | none => []
    | some r => if keep then gm.2 ++ (' ' :: '"' :: (r ++ ['"'])) else r

/-- The body of `main`'s per-line loop, without the final `std::endl`:
every (gap, match) pair is rendered in order, then the trailing text is
printed through `std::cout << &( *prevPos )` — a `const char *`, so output
stops at the first NUL byte (the `std::string` buffer is NUL-terminated at
`end()`, so absent an embedded NUL the whole trailing text is printed). -/
def processLine (resolve : List Char → Option (List Char)) (keep : Bool)
    (line : List Char) : List Char :=
  ((tokenize line).1.map (renderTok resolve keep)).flatten ++
    (tokenize line).2.takeWhile (fun c => c != nulChar)

/-- One full emitted output line: the rewritten text plus the line
terminator written by `std::cout << std::endl`. -/
def outputLine (resolve : List Char → Option (List Char)) (keep : Bool)
    (line : List Char) : List Char :=
  processLine resolve keep line ++ ['\n']

/-- Sanity check of the scanner on scenario A/B's line. -/
theorem tokenize_scenarioAB : tokenize "call ?foo@@YAXXZ done".data =
    ([("call ".data, "?foo@@YAXXZ".data)], " done".data) := by decide

/-- Sanity check of the scanner on scenario D's line. -/
theorem tokenize_scenarioD : tokenize "?bad@ ?foo@@YAXXZ".data =
    ([([], "?bad@".data), (" ".data, "?foo@@YAXXZ".data)], []) := by decide

/-- Sanity check of the scanner on scenario C's line. -/
theorem tokenize_scenarioC : tokenize "no symbols here".data =
    ([], "no symbols here".data) := by decide

/-!
## Input source (`getNextLine`, `inputValid`)

`std::cin` is modelled as a character buffer plus the `eofbit` and
`failbit` flags; `good()` is true when neither flag is set.  (`badbit` is
irrelevant here: nothing in the program can set it.)
-/

/-- Model of `std::cin`: the characters not yet consumed and the stream
state flags. -/
structure IStream where
  buf : List Char
  eof : Bool
  fail : Bool
deriving DecidableEq, Repr

/-- Model of `std::istream::good()`: no error flag is set. -/
def IStream.good (s : IStream) : Bool := !s.eof && !s.fail

/-- Model of `std::getline( std::cin, line )`: on a stream with a flag already set
the sentry fails and `failbit` is set with nothing extracted; on an
exhausted stream `eofbit` and `failbit` are set and the line is empty; else
characters up to the next newline are extracted (the terminator consumed
but not stored), and `eofbit` alone is set when the characters ran out
before a terminator was found. -/
def getlineS (s : IStream) : List Char × IStream :=
  if s.eof || s.fail then ([], { s with fail := true })
  else if s.buf = [] then ([], { s with eof := true, fail := true })
  else
    match s.buf.dropWhile (fun c => c != '\n') with
    | [] => (s.buf.takeWhile (fun c => c != '\n'), { s with buf := [], eof := true })
    | _ :: rest => (s.buf.takeWhile (fun c => c != '\n'), { s with buf := rest })

/-- The program's input state: `gInputStrings` (the optional queue of
command-line strings) and standard input. -/
structure ProgState where
  queue : Option (List (List Char))
  stdin : IStream
deriving DecidableEq, Repr

/-- Model of `inputValid()`: with no queue, `std::cin.good()`; with a queue,
whether it is non-empty. -/
def inputValid (st : ProgState) : Bool :=
  match st.queue with
  | none => st.stdin.good
  | some q => !q.isEmpty

/-- Model of `getNextLine()`: returns `none` when `inputValid()` is false; otherwise
`line` starts empty, and either `std::getline` fills it from `std::cin`
(queue absent) or the front of the queue is popped into it (queue present
and non-empty).  The filled-or-empty `line` is returned as `some`. -/
def getNextLine (st : ProgState) : Option (List Char) × ProgState :=
  if !inputValid st then (none, st)
  else
    match st.queue with
    | none =>
      let r := getlineS st.stdin
      (some r.1, { st with stdin := r.2 })
    | some q =>
      match q with
      | [] => (some [], st)
      | x :: xs => (some x, { st with queue := some xs })

/-- Model of `main`'s driver loop, fuelled: as long as `getNextLine()` yields a
line, process it and emit the rewritten line plus terminator.  Returns the
emitted lines in order and the final input state. -/
def runF (resolve : List Char → Option (List Char)) (keep : Bool) :
    Nat → ProgState → List (List Char) × ProgState
  | 0, st => ([], st)
  | fuel + 1, st =>
    match getNextLine st with
    | (none, st2) => ([], st2)
    | (some line, st2) =>
      let r := runF resolve keep fuel st2
      (outputLine resolve keep line :: r.1, r.2)

/-!
## Argument processing (`processArgs`)
-/

/-- The two globals `processArgs` writes: `gKeepOldName` and
`gInputStrings`. -/
structure ArgSt where
  keep : Bool
  queue : Option (List (List Char))
deriving DecidableEq, Repr

/-- The loop of `processArgs` over `argv[1..]`: a help argument shows the
help text and stops with `false`; `-keep`/`--keep` sets `gKeepOldName`;
any other argument is appended to `gInputStrings`, which is created on the
first such argument.  Returns `true` with the final globals otherwise. -/
def processArgsF : List (List Char) → ArgSt → Bool × ArgSt
  | [], st => (true, st)
  | a :: rest, st =>
    if a = "-help".data ∨ a = "--help".data then (false, st)
    else if a = "-keep".data ∨ a = "--keep".data then
      processArgsF rest { st with keep := true }
    else
      processArgsF rest { st with queue := some ((st.queue.getD []) ++ [a]) }

/-- Model of `processArgs` from the initial globals (`gKeepOldName = false`,
`gInputStrings` absent). -/
def processArgs (args : List (List Char)) : Bool × ArgSt :=
  processArgsF args ⟨false, none⟩

/-!
## The resolver wrapper (`SymbolHandler`)

`UnDecorateSymbolName` is the external collaborator; it is modelled as an
abstract function `und : List Char → Option (List Char)` (`none` when the
call returned 0, otherwise the NUL-terminated contents of the output
buffer).
-/

/-- The state of the `SymbolHandler` singleton after construction: `fProc`
is the process handle, cleared to null when `SymInitialize` failed.
`initOk` is the outcome of the `SymInitialize` call. -/
structure SymbolHandlerSt where
  fProc : Bool
deriving DecidableEq, Repr

/-- The `SymbolHandler` constructor: take the current process handle and
null it out if `SymInitialize` fails. -/
def mkSymbolHandler (initOk : Bool) : SymbolHandlerSt := ⟨initOk⟩

/-- Model of `SymbolHandler::UndecorateSymbol`: calls `UnDecorateSymbolName` on the
candidate and returns the buffer on success.  Note that the source never
consults `fProc` here — the call is made whether or not `SymInitialize`
succeeded. -/
def UndecorateSymbol (und : List Char → Option (List Char))
    (_h : SymbolHandlerSt) (symbol : List Char) : Option (List Char) :=
  und symbol

/-- The `SymbolHandler` destructor: `SymCleanup` runs exactly when `fProc`
is non-null.  Returns whether `SymCleanup` was called. -/
def symbolHandlerCleanup (h : SymbolHandlerSt) : Bool := h.fProc

/-- A whole process lifetime of resolve calls: the Meyers singleton is
constructed once (so `SymInitialize` runs exactly once, never retried) and
every call goes through that one instance. -/
def runResolves (und : List Char → Option (List Char)) (initOk : Bool)
    (calls : List (List Char)) : List (Option (List Char)) :=
  calls.map (UndecorateSymbol und (mkSymbolHandler initOk))

/-- Whether the line contains a substring matched by the candidate pattern
`\?[a-zA-Z0-9_@?$]+`: a `?` immediately followed by a class character. -/
def hasCandidate : List Char → Bool
  | [] => false
  | c :: cs => (c == '?' && headSym cs) || hasCandidate cs

/-- Idealized variant of `processLine` in which the trailing text after the
last match is emitted verbatim rather than through a `const char *`; it is
compared with `processLine` to express exactly how the trailing output is
truncated at an embedded NUL. -/
def processLineNoTrunc (resolve : List Char → Option (List Char))
    (keep : Bool) (line : List Char) : List Char :=
  ((tokenize line).1.map (renderTok resolve keep)).flatten ++ (tokenize line).2

/-- Test for `-help` / `--help` used by `processArgs`. -/
def isHelpArg (a : List Char) : Bool :=
  decide (a = "-help".data ∨ a = "--help".data)

/-- Test for `-keep` / `--keep` used by `processArgs`. -/
def isKeepArg (a : List Char) : Bool :=
  decide (a = "-keep".data ∨ a = "--keep".data)

/-- Appending a batch of queued arguments to an optional queue, creating
it only when at least one element is appended — the shape `processArgs`
leaves `gInputStrings` in. -/
def combineQ (q : Option (List (List Char))) (l : List (List Char)) :
    Option (List (List Char)) :=
  match q with
  | none => if l = [] then none else some l
  | some q0 => some (q0 ++ l)

/-!
## Helper lemmas
-/

/-- On a line with no occurrence of the candidate pattern, the scan finds
no match and the whole line is trailing text. -/
theorem tokenizeF_no_candidate (fuel : Nat) (l : List Char)
    (h : hasCandidate l = false) : tokenizeF fuel l = ([], l) := by
  induction fuel generalizing l with
  | zero => rfl
  | succ fuel ih =>
    cases l with
    | nil => rfl
    | cons c cs =>
      have h' : (c == '?' && headSym cs) = false ∧ hasCandidate cs = false := by
        simpa [hasCandidate] using h
      simp only [tokenizeF, h'.1, Bool.false_eq_true, if_false, ih cs h'.2]

/-- Version of `tokenizeF_no_candidate` stated for `tokenize`. -/
theorem tokenize_no_candidate (l : List Char) (h : hasCandidate l = false) :
    tokenize l = ([], l) :=
  tokenizeF_no_candidate _ _ h

/-!
## Claims
-/

/-- C1: the claim says a candidate whose resolution fails is emitted as the
original matched text, so the line `"?bad@ ?foo@@YAXXZ"` (with `"?bad@"`
failing and `"?foo@@YAXXZ"` resolving to `"void foo(void)"`,
`keepOriginal = false`) should produce `"?bad@ void foo(void)"`.  The code
instead advances `prevPos` past the match before consulting the resolver
and `continue`s without printing on failure, so the failed match is
dropped: the actual output is `" void foo(void)"`. -/
theorem c1_unresolved_match_dropped :
    processLine
      (fun s => if s = "?foo@@YAXXZ".data then some "void foo(void)".data
                else none)
      false "?bad@ ?foo@@YAXXZ".data = " void foo(void)".data ∧
    " void foo(void)".data ≠ "?bad@ void foo(void)".data := by
  constructor
  · decide
  · decide

/-- C2: the claim says that with a resolver that always fails, every line
passes through byte-identical.  On the line `"?a"` the single match is
dropped entirely (`prevPos` is advanced before the failed resolve and
`continue` prints nothing), so the emitted text is empty, for either value
of `keepOriginal` — not byte-identical to the input. -/
theorem c2_always_fail_not_identity :
    processLine (fun _ => none) false "?a".data = [] ∧
    processLine (fun _ => none) true "?a".data = [] ∧
    ([] : List Char) ≠ "?a".data := by
  refine ⟨by decide, by decide, by decide⟩

/-- C3 (amended): for every input line that contains no substring matching
the candidate pattern and no NUL byte, the emitted output is the input
line followed by one line terminator, for both values of `keepOriginal`
and any resolver.  (The NUL-freedom hypothesis is forced: the trailing
text is printed as a `const char *` and stops at an embedded NUL.) -/
theorem c3_passthrough_no_candidate (resolve : List Char → Option (List Char))
    (keep : Bool) (line : List Char) (h : hasCandidate line = false)
    (hn : nulChar ∉ line) :
    outputLine resolve keep line = line ++ ['\n'] := by
  unfold outputLine processLine
  rw [tokenize_no_candidate line h]
  have ht : line.takeWhile (fun c => c != nulChar) = line := by
    rw [List.takeWhile_eq_self_iff]
    intro c hc
    simp only [bne_iff_ne, ne_eq]
    exact fun e => hn (e ▸ hc)
  simp [ht]

/-- Witness for C3 at a concrete NUL-free, match-free line. -/
theorem c3_witness :
    hasCandidate "no symbols here".data = false ∧
    nulChar ∉ "no symbols here".data ∧
    outputLine (fun _ => none) true "no symbols here".data =
      "no symbols here".data ++ ['\n'] :=
  ⟨by decide, by decide,
    c3_passthrough_no_candidate (fun _ => none) true "no symbols here".data
      (by decide) (by decide)⟩

/-- Counterexample to C3 as stated: the line `['a', NUL, 'b']` contains no
candidate-pattern match, yet the emitted output is `"a"` plus the
terminator — the trailing output stops at the embedded NUL, so output does
not equal input plus terminator. -/
theorem c3_counterexample :
    hasCandidate ['a', nulChar, 'b'] = false ∧
    outputLine (fun _ => none) false ['a', nulChar, 'b'] = ['a', '\n'] ∧
    (['a', '\n'] : List Char) ≠ ['a', nulChar, 'b'] ++ ['\n'] := by
  refine ⟨by decide, by decide, by decide⟩

/-- C7: on the line `"call ?foo@@YAXXZ done"`, with any resolver mapping
`"?foo@@YAXXZ"` to `"void foo(void)"` and `keepOriginal = false`, the
emitted text is `"call void foo(void) done"`: the resolved name replaces
the matched span in place and the surrounding text is verbatim. -/
theorem c7_scenarioA (resolve : List Char → Option (List Char))
    (h : resolve "?foo@@YAXXZ".data = some "void foo(void)".data) :
    processLine resolve false "call ?foo@@YAXXZ done".data =
      "call void foo(void) done".data := by
  have ht : tokenize "call ?foo@@YAXXZ done".data =
      ([("call ".data, "?foo@@YAXXZ".data)], " done".data) := by decide
  unfold processLine renderTok
  rw [ht]
  simp only [List.map_cons, List.map_nil, h]
  decide

/-- Witness for C7 with a concrete resolver. -/
theorem c7_witness :
    processLine
      (fun s => if s = "?foo@@YAXXZ".data then some "void foo(void)".data
                else none)
      false "call ?foo@@YAXXZ done".data =
      "call void foo(void) done".data :=
  c7_scenarioA _ (by decide)

/-- C8: on the line `"call ?foo@@YAXXZ done"`, with any resolver mapping
`"?foo@@YAXXZ"` to `"void foo(void)"` and `keepOriginal = true`, the
emitted text keeps the original matched text, then one space, then the
resolved name in double quotes. -/
theorem c8_scenarioB (resolve : List Char → Option (List Char))
    (h : resolve "?foo@@YAXXZ".data = some "void foo(void)".data) :
    processLine resolve true "call ?foo@@YAXXZ done".data =
      "call ?foo@@YAXXZ \"void foo(void)\" done".data := by
  have ht : tokenize "call ?foo@@YAXXZ done".data =
      ([("call ".data, "?foo@@YAXXZ".data)], " done".data) := by decide
  unfold processLine renderTok
  rw [ht]
  simp only [List.map_cons, List.map_nil, h]
  decide

/-- Witness for C8 with a concrete resolver. -/
theorem c8_witness :
    processLine
      (fun s => if s = "?foo@@YAXXZ".data then some "void foo(void)".data
                else none)
      true "call ?foo@@YAXXZ done".data =
      "call ?foo@@YAXXZ \"void foo(void)\" done".data :=
  c8_scenarioB _ (by decide)

/-- C9: for every line, resolver and policy, the emitted text differs from
the idealized full emission only by dropping the trailing text from its
first NUL byte on (so characters of the trailing segment at or after an
embedded NUL are not written), while the gap text of every match is
emitted verbatim inside the output — embedded NUL bytes included. -/
theorem c9_trailing_nul_truncation (resolve : List Char → Option (List Char))
    (keep : Bool) (line : List Char) :
    processLineNoTrunc resolve keep line =
      processLine resolve keep line ++
        (tokenize line).2.dropWhile (fun c => c != nulChar) ∧
    ∀ gm ∈ (tokenize line).1, ∃ pre post,
      processLine resolve keep line = pre ++ gm.1 ++ post := by
  constructor
  · unfold processLineNoTrunc processLine
    rw [List.append_assoc, List.takeWhile_append_dropWhile]
  · intro gm hm
    obtain ⟨s, t, hst⟩ := List.append_of_mem hm
    obtain ⟨tail, htail⟩ : ∃ tail, renderTok resolve keep gm = gm.1 ++ tail :=
      ⟨_, rfl⟩
    refine ⟨(s.map (renderTok resolve keep)).flatten,
      tail ++ (t.map (renderTok resolve keep)).flatten ++
        (tokenize line).2.takeWhile (fun c => c != nulChar), ?_⟩
    unfold processLine
    rw [hst, List.map_append, List.map_cons, List.flatten_append,
      List.flatten_cons, htail]
    simp [List.append_assoc]

/-- Witness for C9: in the line `a␀b?cd␀e` the single match `?cd` has gap
text `a␀b`, which appears verbatim (NUL included) in the output. -/
theorem c9_witness :
    ∃ pre post,
      processLine (fun _ => none) false
        ('a' :: nulChar :: 'b' :: '?' :: 'c' :: 'd' :: nulChar :: ['e']) =
        pre ++ ['a', nulChar, 'b'] ++ post :=
  (c9_trailing_nul_truncation (fun _ => none) false
      ('a' :: nulChar :: 'b' :: '?' :: 'c' :: 'd' :: nulChar :: ['e'])).2
    (['a', nulChar, 'b'], "?cd".data) (by decide)

/-- C4: counterexample to the claim that a failed one-time initialization
makes every subsequent resolve call return the unresolved signal.  In the
source, `UndecorateSymbol` never consults `fProc`: with `SymInitialize`
failed, a call whose `UnDecorateSymbolName` succeeds still returns a
resolved name. -/
theorem c4_counterexample :
    UndecorateSymbol (fun s => some s) (mkSymbolHandler false) "?x".data =
      some "?x".data ∧
    some "?x".data ≠ (none : Option (List Char)) := by
  refine ⟨rfl, by decide⟩

/-- C4 (amended): a failed initialization is recorded (the process handle
is nulled, so `SymCleanup` is skipped at teardown) and initialization is
never retried — the singleton is constructed once for all calls — but
resolve results are unaffected by the initialization outcome: every call
still invokes `UnDecorateSymbolName` and may return a resolved name. -/
theorem c4_init_failure_recorded_only (und : List Char → Option (List Char))
    (initOk : Bool) (calls : List (List Char)) :
    runResolves und initOk calls = calls.map und ∧
    runResolves und false calls = runResolves und true calls ∧
    symbolHandlerCleanup (mkSymbolHandler initOk) = initOk := by
  refine ⟨rfl, rfl, rfl⟩

/-- C5: counterexample to the claim that a nextLine call made when the
stream has no more data returns nothing and that exactly one output line
is emitted per line present.  On an exhausted stream whose flags are not
yet set (for example an empty standard input that has never been read),
`inputValid()` still sees `good()`, `std::getline` fails leaving `line`
empty, and `getNextLine` returns that empty line — so the run over an
empty stream emits one (empty) output line where zero lines are present. -/
theorem c5_counterexample :
    (getNextLine ⟨none, ⟨[], false, false⟩⟩).1 = some [] ∧
    (runF (fun _ => none) false 2 ⟨none, ⟨[], false, false⟩⟩).1 = [['\n']] := by
  refine ⟨rfl, rfl⟩

/-- C5 (amended): in live-stream mode `getNextLine` returns nothing
exactly when the stream's eof or fail flag is already set at the time of
the call; a call made when the stream is exhausted but neither flag is set
yet returns an empty line and sets both flags, so one extra empty output
line is emitted after streams whose last read did not raise a flag. -/
theorem c5_nextLine_flag_based (s : IStream) :
    ((getNextLine ⟨none, s⟩).1 = none ↔ (s.eof || s.fail) = true) ∧
    (s.eof = false → s.fail = false → s.buf = [] →
      getNextLine ⟨none, s⟩ = (some [], ⟨none, ⟨[], true, true⟩⟩)) := by
  obtain ⟨b, e, f⟩ := s
  cases e <;> cases f <;>
    simp [getNextLine, inputValid, IStream.good, getlineS]
  intro hb
  subst hb
  exact ⟨rfl, rfl⟩

/-- Witness for C5: a stream with eof already set yields no line; an
exhausted flagless stream yields an empty line and raises both flags. -/
theorem c5_witness :
    (getNextLine ⟨none, ⟨[], true, false⟩⟩).1 = none ∧
    getNextLine ⟨none, ⟨[], false, false⟩⟩ =
      (some [], ⟨none, ⟨[], true, true⟩⟩) :=
  ⟨(c5_nextLine_flag_based ⟨[], true, false⟩).1.mpr (by decide),
   (c5_nextLine_flag_based ⟨[], false, false⟩).2 rfl rfl rfl⟩

/-- Driving the loop in queue mode: with enough fuel (more than the queue
length), the run emits one output line per queued string in FIFO order
and ends with the queue empty and standard input untouched. -/
theorem runF_queue_mode (resolve : List Char → Option (List Char))
    (keep : Bool) :
    ∀ (fuel : Nat) (q : List (List Char)) (s : IStream), q.length < fuel →
      runF resolve keep fuel ⟨some q, s⟩ =
        (q.map (outputLine resolve keep), ⟨some [], s⟩) := by
  intro fuel
  induction fuel with
  | zero => intro q s h; omega
  | succ fuel ih =>
    intro q s h
    cases q with
    | nil => simp [runF, getNextLine, inputValid]
    | cons x xs =>
      have hn : getNextLine ⟨some (x :: xs), s⟩ = (some x, ⟨some xs, s⟩) := by
        simp [getNextLine, inputValid]
      rw [runF, hn]
      have hlen : xs.length < fuel := by
        simpa using Nat.lt_of_succ_lt_succ h
      simp [ih xs s hlen]

/-- C6: when the startup arguments supplied at least one literal string
(the queue is present), the whole run leaves standard input untouched and
emits the queued strings one per `getNextLine` call in FIFO order, with
`getNextLine` returning nothing once the queue is empty; and when no
literal strings were given (the queue is absent), the queue plays no role:
no call ever creates one. -/
theorem c6_queue_mode (resolve : List Char → Option (List Char))
    (keep : Bool) (q : List (List Char)) (s : IStream) (fuel : Nat)
    (hf : q.length < fuel) :
    (runF resolve keep fuel ⟨some q, s⟩).1 = q.map (outputLine resolve keep) ∧
    (runF resolve keep fuel ⟨some q, s⟩).2.stdin = s ∧
    (∀ st : ProgState, ∀ x xs, st.queue = some (x :: xs) →
      getNextLine st = (some x, ⟨some xs, st.stdin⟩)) ∧
    (∀ st : ProgState, st.queue = some [] → getNextLine st = (none, st)) ∧
    (∀ st : ProgState, st.queue = none → ((getNextLine st).2).queue = none) := by
  refine ⟨?_, ?_, ?_, ?_, ?_⟩
  · rw [runF_queue_mode resolve keep fuel q s hf]
  · rw [runF_queue_mode resolve keep fuel q s hf]
  · intro st x xs h
    obtain ⟨q0, s0⟩ := st
    simp only at h
    subst h
    simp [getNextLine, inputValid]
  · intro st h
    obtain ⟨q0, s0⟩ := st
    simp only at h
    subst h
    simp [getNextLine, inputValid]
  · intro st h
    obtain ⟨q0, s0⟩ := st
    simp only at h
    subst h
    cases hval : inputValid ⟨none, s0⟩ <;> simp [getNextLine, hval]

/-- Witness for C6: two queued strings come out in order while a non-empty
standard input is never consulted. -/
theorem c6_witness :
    (runF (fun _ => none) false 3
        ⟨some ["a".data, "b".data], ⟨"z".data, false, false⟩⟩).1 =
      [outputLine (fun _ => none) false "a".data,
       outputLine (fun _ => none) false "b".data] ∧
    (runF (fun _ => none) false 3
        ⟨some ["a".data, "b".data], ⟨"z".data, false, false⟩⟩).2.stdin =
      ⟨"z".data, false, false⟩ :=
  ⟨(c6_queue_mode (fun _ => none) false ["a".data, "b".data]
      ⟨"z".data, false, false⟩ 3 (by decide)).1,
   (c6_queue_mode (fun _ => none) false ["a".data, "b".data]
      ⟨"z".data, false, false⟩ 3 (by decide)).2.1⟩

/-- Unfolding of `processArgs`'s loop over help-free arguments from an
arbitrary intermediate state of the globals. -/
theorem processArgsF_no_help (args : List (List Char)) :
    ∀ st : ArgSt, (∀ a ∈ args, isHelpArg a = false) →
      processArgsF args st =
        (true, ⟨st.keep || args.any isKeepArg,
                combineQ st.queue (args.filter (fun a => !isKeepArg a))⟩) := by
  induction args with
  | nil =>
    intro st _
    obtain ⟨k, qo⟩ := st
    cases qo <;> simp [processArgsF, combineQ]
  | cons a rest ih =>
    intro st h
    have ha : ¬(a = "-help".data ∨ a = "--help".data) :=
      of_decide_eq_false (h a (List.mem_cons_self a rest))
    have hrest : ∀ b ∈ rest, isHelpArg b = false :=
      fun b hb => h b (List.mem_cons_of_mem a hb)
    obtain ⟨k, qo⟩ := st
    by_cases hk : a = "-keep".data ∨ a = "--keep".data
    · have hk' : isKeepArg a = true := decide_eq_true hk
      simp only [processArgsF, if_neg ha, if_pos hk, ih _ hrest, hk',
        List.any_cons, List.filter_cons, Bool.not_true, Bool.true_or,
        Bool.or_true, if_false]
      simp
    · have hk' : isKeepArg a = false := decide_eq_false hk
      simp only [processArgsF, if_neg ha, if_neg hk, ih _ hrest, hk',
        List.any_cons, List.filter_cons, Bool.not_false, Bool.false_or,
        if_true]
      cases qo <;> simp [combineQ]

/-- C10: counterexample to the claim that every `-keep`/`--keep` argument,
wherever it appears, sets the keep flag: when a help argument precedes it,
`processArgs` stops at the help argument and `--keep` is never processed,
so the flag stays false. -/
theorem c10_counterexample :
    "--keep".data ∈ ["--help".data, "--keep".data] ∧
    (processArgs ["--help".data, "--keep".data]).2.keep = false := by
  refine ⟨by decide, rfl⟩

/-- C10 (amended): over argument lists containing no help argument,
`processArgs` succeeds; each `-keep`/`--keep`, wherever it appears, sets
the keep flag and is never queued; every other argument is appended to the
queue in argument order; and the queue is created exactly when the first
such argument arrives (it stays absent when there is none). -/
theorem c10_args_no_help (args : List (List Char))
    (h : ∀ a ∈ args, isHelpArg a = false) :
    (processArgs args).1 = true ∧
    (processArgs args).2.keep = args.any isKeepArg ∧
    (processArgs args).2.queue =
      combineQ none (args.filter (fun a => !isKeepArg a)) := by
  unfold processArgs
  rw [processArgsF_no_help args ⟨false, none⟩ h]
  simp

/-- Witness for C10 on the argument list `[-keep, x]`. -/
theorem c10_witness :
    (processArgs ["-keep".data, "x".data]).1 = true ∧
    (processArgs ["-keep".data, "x".data]).2.keep =
      (["-keep".data, "x".data].any isKeepArg) ∧
    (processArgs ["-keep".data, "x".data]).2.queue =
      combineQ none ((["-keep".data, "x".data]).filter
        (fun a => !isKeepArg a)) :=
  c10_args_no_help ["-keep".data, "x".data] (by decide)
